import Mathlib

/-
A shallow embedding of the fixed-point arithmetic library: the generic C++
class template fp::Number<IntType, WideType, NumIntBits> from
src/fixed_point/fixed_point.hpp, and the non-generic C reference variant from
src/main.c (int32_t backing, 14 integer bits, 18 fractional bits).

Machine integers are modelled as mathematical integers together with explicit
modular reduction (two's complement for signed types) at every conversion.
A fixed-point number is represented by its raw field value_ : the factory
FromBits is the identity on raws, and every operation below maps raws to raws
exactly as the corresponding C/C++ source expression does.  C++20 integer
conversions are modular; wraparound of the remaining arithmetic matches the
specification's "wraps on overflow per native integer semantics".
-/

namespace FixedPoint

/-- Value of a `static_cast` to an integer type of width `w` bits: a signed
cast reduces modulo `2 ^ w` into `[-2 ^ (w-1), 2 ^ (w-1))` (two's complement),
an unsigned cast reduces into `[0, 2 ^ w)`. -/
def icast : Bool → Nat → Int → Int
  | true, w, x => (x + 2 ^ (w - 1)) % 2 ^ w - 2 ^ (w - 1)
  | false, w, x => x % 2 ^ w

/-- Bit pattern, as a natural number below `2 ^ w`, of the `w`-bit machine
integer holding the value `x`. -/
def pat (w : Nat) (x : Int) : Nat := (x % 2 ^ w).toNat

/-- Value of C's bitwise `&` on two `w`-bit machine integers of signedness
`s`: AND of the bit patterns, reinterpreted as a value. -/
def landW (s : Bool) (w : Nat) (x y : Int) : Int :=
  icast s w (Nat.land (pat w x) (pat w y))

/-- Compile-time configuration of `fp::Number<IntType, WideType, NumIntBits>`:
the signedness and byte size of the base and wide integer types, and the
number of integer bits. -/
structure Config where
  baseSigned : Bool
  wideSigned : Bool
  baseBytes : Nat
  wideBytes : Nat
  numIntBits : Nat

/-- Byte sizes of the standard C++ sized integer types usable for `IntType`
and `WideType` (`std::int8_t` ... `std::int64_t` and unsigned variants). -/
abbrev StdSize (n : Nat) : Prop := n = 1 ∨ n = 2 ∨ n = 4 ∨ n = 8

/-- Value of `std::numeric_limits<T>::digits`: the number of non-sign value
bits of the integer type. -/
def digits : Bool → Nat → Nat
  | true, bytes => 8 * bytes - 1
  | false, bytes => 8 * bytes

namespace Config

/-- Concept `SameSignedness<T1, T2>`. -/
abbrev SameSignedness (c : Config) : Prop := c.baseSigned = c.wideSigned

/-- Concept `LargerThan<T1, T2>`: `sizeof(T1) > sizeof(T2)` for the wide and
base types. -/
abbrev LargerThan (c : Config) : Prop := c.wideBytes > c.baseBytes

/-- Concept `ValidIntBits<T, NumIntBits>`:
`NumIntBits < std::numeric_limits<T>::digits`. -/
abbrev ValidIntBits (c : Config) : Prop :=
  c.numIntBits < digits c.baseSigned c.baseBytes

/-- Concept `Max64Bits<T>`: `std::numeric_limits<T>::digits <= 64`. -/
abbrev Max64Bits (c : Config) : Prop := digits c.wideSigned c.wideBytes ≤ 64

/-- The `requires` clause of the class template `fp::Number`, instantiated
over the standard integral types. -/
abbrev Valid (c : Config) : Prop :=
  StdSize c.baseBytes ∧ StdSize c.wideBytes ∧
    c.SameSignedness ∧ c.LargerThan ∧ c.ValidIntBits ∧ c.Max64Bits

end Config

namespace Number

/-- Constant `kNumBits = sizeof(IntType) * 8`. -/
def kNumBits (c : Config) : Nat := 8 * c.baseBytes

/-- Width in bits of `WideType`. -/
def kWideBits (c : Config) : Nat := 8 * c.wideBytes

/-- Constant `kNumFracBits = kNumBits - NumIntBits`. -/
def kNumFracBits (c : Config) : Nat := kNumBits c - c.numIntBits

/-- Value of `static_cast<IntType>`. -/
def narrow (c : Config) (x : Int) : Int := icast c.baseSigned (kNumBits c) x

/-- Value of `static_cast<WideType>`, and of the modular wrap on `WideType`
arithmetic. -/
def wide (c : Config) (x : Int) : Int := icast c.wideSigned (kWideBits c) x

/-- Constant
`kScaleFactor = static_cast<IntType>(static_cast<WideType>(1) << kNumFracBits)`. -/
def kScaleFactor (c : Config) : Int := narrow c (wide c (2 ^ kNumFracBits c))

/-- The raw values representable in `IntType` (the possible states of the
field `value_`). -/
def InRange (c : Config) (x : Int) : Prop :=
  if c.baseSigned then -(2 ^ (kNumBits c - 1)) ≤ x ∧ x < 2 ^ (kNumBits c - 1)
  else 0 ≤ x ∧ x < 2 ^ kNumBits c

/-- Getter `FracMask() = (static_cast<IntType>(1) << kNumFracBits) - 1`, an
`IntType` computation (the shift and the subtraction wrap at `IntType`
width). -/
def FracMask (c : Config) : Int :=
  narrow c (narrow c (2 ^ kNumFracBits c) - 1)

/-- Constant `Zero() = FromBits(0)`. -/
def Zero (_ : Config) : Int := 0

/-- Constant `PosOne() = FromBits(kScaleFactor)`. -/
def PosOne (c : Config) : Int := kScaleFactor c

/-- Constant `NegOne() = FromBits(-kScaleFactor)` (signed configurations). -/
def NegOne (c : Config) : Int := narrow c (-(kScaleFactor c))

/-- Operator `+` : `FromBits(value_ + other.value_)`. -/
def add (c : Config) (a b : Int) : Int := narrow c (a + b)

/-- Operator `-` (binary) : `FromBits(value_ - other.value_)`. -/
def sub (c : Config) (a b : Int) : Int := narrow c (a - b)

/-- Operator `*` : widen both raws to `WideType`, multiply there,
arithmetic-shift right by `kNumFracBits`, narrow back to `IntType`. -/
def mul (c : Config) (a b : Int) : Int :=
  narrow c (Int.fdiv (wide c (wide c a * wide c b)) (2 ^ kNumFracBits c))

/-- Operator `/` : widen the dividend and shift it left by `kNumFracBits` in
`WideType`, divide (C++ `/` truncates toward zero) by the widened divisor,
narrow back to `IntType`. -/
def div (c : Config) (a b : Int) : Int :=
  narrow c (Int.tdiv (wide c (wide c a * 2 ^ kNumFracBits c)) (wide c b))

/-- Static `SignBit(a)`: for signed types the truth value of
`(a.value_ >> (kNumBits - 1)) & 1` (arithmetic shift); for unsigned types
`false`. -/
def SignBit (c : Config) (a : Int) : Bool :=
  if c.baseSigned then
    landW c.baseSigned (kNumBits c) (Int.fdiv a (2 ^ (kNumBits c - 1))) 1 != 0
  else false

/-- Static `Sign(a)`: for signed types `SignBit(a) ? NegOne() : PosOne()`;
for unsigned types `a.value_ == 0 ? Zero() : PosOne()`. -/
def Sign (c : Config) (a : Int) : Int :=
  if c.baseSigned then (if SignBit c a then NegOne c else PosOne c)
  else (if a = 0 then Zero c else PosOne c)

/-- Friend `Abs(a)`: for signed types, cast the raw to `WideType`, negate it
there when the sign bit is set, and narrow back; for unsigned types the
identity. -/
def Abs (c : Config) (a : Int) : Int :=
  if c.baseSigned then narrow c (if SignBit c a then -(wide c a) else wide c a)
  else a

/-- Friend `FracPart(a) = FromBits(Abs(a).value_ & FracMask())`. -/
def FracPart (c : Config) (a : Int) : Int :=
  landW c.baseSigned (kNumBits c) (Abs c a) (FracMask c)

end Number

/-
The non-generic C reference variant from src/main.c:
fp_int_t = int32_t, fp_int_xl_t = int64_t, FP_NUM_BITS = 32,
FP_INT_BITS = 14, FP_FRAC_BITS = 18, FP_SCALE = 18.
-/

/-- Two's-complement wrap to the `int32_t` range: the value semantics of
casts to `fp_int_t` and of wraparound on 32-bit arithmetic. -/
def wrap32 (x : Int) : Int := icast true 32 x

/-- Macro `FP_SCALE_FACTOR = (1 << FP_SCALE)`. -/
def FP_SCALE_FACTOR : Int := 2 ^ 18

/-- Macro `FP_INT_MASK = ((1 << FP_INT_BITS) - 1) << FP_FRAC_BITS`, a 32-bit
`int` computation whose value wraps to `-2 ^ 18`. -/
def FP_INT_MASK : Int := wrap32 ((2 ^ 14 - 1) * 2 ^ 18)

/-- Macro `FP_FRAC_MASK = (1 << FP_FRAC_BITS) - 1`. -/
def FP_FRAC_MASK : Int := 2 ^ 18 - 1

/-- Macro `FP_FROM_INT(a) = (a << FP_SCALE)` at 32-bit `int` width. -/
def FP_FROM_INT (a : Int) : Int := wrap32 (a * 2 ^ 18)

/-- Macro `FP_VAL_HALF = (1 << (FP_FRAC_BITS - 1))`. -/
def FP_VAL_HALF : Int := 2 ^ 17

/-- Macro `FP_VAL_POS_ONE = FP_FROM_INT(1)`. -/
def FP_VAL_POS_ONE : Int := FP_FROM_INT 1

/-- Macro `FP_VAL_NEG_ONE = FP_FROM_INT(-1)`. -/
def FP_VAL_NEG_ONE : Int := FP_FROM_INT (-1)

/-- Macro `FP_SIGN_BIT(a) = ((a >> (FP_NUM_BITS - 1)) & 1)` (arithmetic
shift of a 32-bit signed value). -/
def FP_SIGN_BIT (a : Int) : Int := landW true 32 (Int.fdiv a (2 ^ 31)) 1

/-- Macro `FP_SIGN(a) = (FP_SIGN_BIT(a) == FP_VAL_ZERO ? FP_VAL_POS_ONE :
FP_VAL_NEG_ONE)`. -/
def FP_SIGN (a : Int) : Int :=
  if FP_SIGN_BIT a = 0 then FP_VAL_POS_ONE else FP_VAL_NEG_ONE

/-- Function `fp_abs(a) = (FP_SIGN_BIT(a) == 0) ? a : (~a + 1)`; the 32-bit
complement `~a` has value `-a - 1` and the increment wraps at 32 bits. -/
def fp_abs (a : Int) : Int :=
  if FP_SIGN_BIT a = 0 then a else wrap32 (wrap32 (-a - 1) + 1)

/-- Function `fp_frac(a) = fp_abs(a) & FP_FRAC_MASK`. -/
def fp_frac (a : Int) : Int := landW true 32 (fp_abs a) FP_FRAC_MASK

/-- Function `fp_floor(a)`: return `a` when the fractional part is zero, else
`FP_INT_MASK & a` for non-negative `a` and `(FP_INT_MASK & a) +
FP_VAL_POS_ONE` for negative `a`. -/
def fp_floor (a : Int) : Int :=
  if fp_frac a = 0 then a
  else if FP_SIGN_BIT a = 0 then landW true 32 FP_INT_MASK a
  else wrap32 (landW true 32 FP_INT_MASK a + FP_VAL_POS_ONE)

/-- Function `fp_ceil(a)`: return `a` when the fractional part is zero, else
`fp_floor(a) + FP_SIGN(a)`. -/
def fp_ceil (a : Int) : Int :=
  if fp_frac a = 0 then a else wrap32 (fp_floor a + FP_SIGN a)

/-- Function `fp_round(a) = (fp_frac(a) >= FP_VAL_HALF) ? fp_ceil(a) :
fp_floor(a)`. -/
def fp_round (a : Int) : Int :=
  if fp_frac a ≥ FP_VAL_HALF then fp_ceil a else fp_floor a

/-- Function `float_to_fp(a) = (fp_int_t)(a * FP_SCALE_FACTOR)`.  The
argument of the C function is an IEEE-754 `float` whose exact value is the
dyadic rational `num / 2 ^ exp`; multiplying a float by the power of two
`FP_SCALE_FACTOR` only shifts its exponent and is exact at the magnitudes
used here, and the cast to `fp_int_t` truncates toward zero. -/
def float_to_fp (num : Int) (exp : Nat) : Int :=
  wrap32 (Int.tdiv (num * FP_SCALE_FACTOR) (2 ^ exp))

/- Sample configurations used by witnesses and counterexamples. -/

/-- Configuration `fp::Number<std::int8_t, std::int16_t, 3>`. -/
def cS8 : Config := ⟨true, true, 1, 2, 3⟩

/-- Configuration `fp::Number<std::int8_t, std::int16_t, 1>`: accepted by the
`requires` clause, but its `kScaleFactor` narrowing wraps `2 ^ 7` to `-128`. -/
def cP1 : Config := ⟨true, true, 1, 2, 1⟩

/-- Configuration `fp::Number<std::int32_t, std::int64_t, 0>`: accepted by
the `requires` clause although it has zero integer bits. -/
def cZ0 : Config := ⟨true, true, 4, 8, 0⟩

instance (c : Config) (x : Int) : Decidable (Number.InRange c x) := by
  unfold Number.InRange
  split <;> infer_instance

/- Helper lemmas about the machine-integer model. -/

lemma icast_true_eq_self {w : Nat} {x : Int} (hw : 1 ≤ w)
    (h1 : -(2 ^ (w - 1)) ≤ x) (h2 : x < 2 ^ (w - 1)) : icast true w x = x := by
  have hsplit : (2 : ℤ) ^ w = 2 ^ (w - 1) * 2 := by
    rw [← pow_succ]
    congr 1
    omega
  show (x + 2 ^ (w - 1)) % 2 ^ w - 2 ^ (w - 1) = x
  rw [Int.emod_eq_of_lt (by omega) (by omega)]
  omega

lemma icast_false_eq_self {w : Nat} {x : Int} (h1 : 0 ≤ x) (h2 : x < 2 ^ w) :
    icast false w x = x := by
  show x % 2 ^ w = x
  exact Int.emod_eq_of_lt h1 h2

lemma icast_true_bounds (w : Nat) (x : Int) (hw : 1 ≤ w) :
    -(2 ^ (w - 1)) ≤ icast true w x ∧ icast true w x < 2 ^ (w - 1) := by
  have hsplit : (2 : ℤ) ^ w = 2 ^ (w - 1) * 2 := by
    rw [← pow_succ]
    congr 1
    omega
  have hpos : (0 : ℤ) < 2 ^ w := pow_pos (by norm_num) w
  have h1 := Int.emod_nonneg (x + 2 ^ (w - 1)) (ne_of_gt hpos)
  have h2 := Int.emod_lt_of_pos (x + 2 ^ (w - 1)) hpos
  show -(2 ^ (w - 1)) ≤ (x + 2 ^ (w - 1)) % 2 ^ w - 2 ^ (w - 1) ∧
    (x + 2 ^ (w - 1)) % 2 ^ w - 2 ^ (w - 1) < 2 ^ (w - 1)
  omega

lemma icast_false_bounds (w : Nat) (x : Int) :
    0 ≤ icast false w x ∧ icast false w x < 2 ^ w := by
  have hpos : (0 : ℤ) < 2 ^ w := pow_pos (by norm_num) w
  show 0 ≤ x % 2 ^ w ∧ x % 2 ^ w < 2 ^ w
  exact ⟨Int.emod_nonneg x (ne_of_gt hpos), Int.emod_lt_of_pos x hpos⟩

lemma size_double {b w : Nat} (hb : StdSize b) (hw : StdSize w) (h : b < w) :
    2 * b ≤ w := by
  rcases hb with h1 | h1 | h1 | h1 <;> rcases hw with h2 | h2 | h2 | h2 <;> omega

lemma digits_le (s : Bool) (b : Nat) : digits s b ≤ 8 * b := by
  cases s <;> simp [digits]

lemma valid_facts {c : Config} (hc : c.Valid) :
    8 ≤ Number.kNumBits c ∧ 2 * Number.kNumBits c ≤ Number.kWideBits c ∧
      c.numIntBits < Number.kNumBits c := by
  obtain ⟨hB, hW, -, hlt, hvib, -⟩ := hc
  have h1 : 1 ≤ c.baseBytes := by rcases hB with h | h | h | h <;> omega
  have h2 := size_double hB hW hlt
  have h3 := lt_of_lt_of_le hvib (digits_le c.baseSigned c.baseBytes)
  unfold Number.kNumBits Number.kWideBits
  unfold Number.kNumBits at h3
  omega

lemma narrow_eq_self {c : Config} (hc : c.Valid) {x : Int}
    (h : Number.InRange c x) : Number.narrow c x = x := by
  obtain ⟨h8, -, -⟩ := valid_facts hc
  unfold Number.InRange at h
  unfold Number.narrow
  cases hs : c.baseSigned
  · simp [hs] at h
    exact icast_false_eq_self h.1 h.2
  · simp [hs] at h
    exact icast_true_eq_self (by omega) h.1 h.2

lemma narrow_mem_range {c : Config} (hc : c.Valid) (x : Int) :
    Number.InRange c (Number.narrow c x) := by
  obtain ⟨h8, -, -⟩ := valid_facts hc
  unfold Number.InRange Number.narrow
  cases hs : c.baseSigned
  · simp only [hs, Bool.false_eq_true, if_false]
    exact icast_false_bounds _ _
  · simp only [hs, if_true]
    exact icast_true_bounds _ _ (by omega)

lemma wide_of_inRange {c : Config} (hc : c.Valid) {x : Int}
    (h : Number.InRange c x) : Number.wide c x = x := by
  obtain ⟨h8, hdw, -⟩ := valid_facts hc
  have hss : c.baseSigned = c.wideSigned := hc.2.2.1
  unfold Number.InRange at h
  unfold Number.wide
  cases hs : c.baseSigned
  · simp [hs] at h
    rw [← hss, hs]
    have hmono : (2:ℤ) ^ Number.kNumBits c ≤ 2 ^ Number.kWideBits c :=
      pow_le_pow_right₀ (by norm_num) (by omega)
    exact icast_false_eq_self h.1 (by omega)
  · simp [hs] at h
    rw [← hss, hs]
    have hmono : (2:ℤ) ^ (Number.kNumBits c - 1) ≤ 2 ^ (Number.kWideBits c - 1) :=
      pow_le_pow_right₀ (by norm_num) (by omega)
    exact icast_true_eq_self (by omega) (by omega) (by omega)

lemma wide_mul_exact {c : Config} (hc : c.Valid) {a b : Int}
    (ha : Number.InRange c a) (hb : Number.InRange c b) :
    Number.wide c (a * b) = a * b := by
  obtain ⟨h8, hdw, -⟩ := valid_facts hc
  have hss : c.baseSigned = c.wideSigned := hc.2.2.1
  unfold Number.InRange at ha hb
  unfold Number.wide
  cases hs : c.baseSigned
  · simp [hs] at ha hb
    rw [← hss, hs]
    have h1 : a * b < 2 ^ Number.kNumBits c * 2 ^ Number.kNumBits c :=
      mul_lt_mul'' ha.2 hb.2 ha.1 hb.1
    have h2 : (2:ℤ) ^ Number.kNumBits c * 2 ^ Number.kNumBits c =
        2 ^ (Number.kNumBits c + Number.kNumBits c) := (pow_add 2 _ _).symm
    have h3 : (2:ℤ) ^ (Number.kNumBits c + Number.kNumBits c) ≤
        2 ^ Number.kWideBits c :=
      pow_le_pow_right₀ (by norm_num) (by omega)
    exact icast_false_eq_self (mul_nonneg ha.1 hb.1) (by omega)
  · simp [hs] at ha hb
    rw [← hss, hs]
    have h1 : |a| ≤ 2 ^ (Number.kNumBits c - 1) := abs_le.mpr ⟨ha.1, le_of_lt ha.2⟩
    have h2 : |b| ≤ 2 ^ (Number.kNumBits c - 1) := abs_le.mpr ⟨hb.1, le_of_lt hb.2⟩
    have h3 : |a * b| ≤ 2 ^ (Number.kNumBits c - 1) * 2 ^ (Number.kNumBits c - 1) := by
      rw [abs_mul]
      exact mul_le_mul h1 h2 (abs_nonneg b) (by positivity)
    have h4 : (2:ℤ) ^ (Number.kNumBits c - 1) * 2 ^ (Number.kNumBits c - 1) =
        2 ^ ((Number.kNumBits c - 1) + (Number.kNumBits c - 1)) := (pow_add 2 _ _).symm
    have h5 : (2:ℤ) ^ ((Number.kNumBits c - 1) + (Number.kNumBits c - 1)) <
        2 ^ (Number.kWideBits c - 1) :=
      pow_lt_pow_right₀ (by norm_num) (by omega)
    have h6 : -(2 ^ (Number.kWideBits c - 1)) ≤ a * b ∧
        a * b < 2 ^ (Number.kWideBits c - 1) := by
      have := abs_le.mp h3
      omega
    exact icast_true_eq_self (by omega) h6.1 h6.2

lemma wide_shl_exact {c : Config} (hc : c.Valid) {a : Int}
    (ha : Number.InRange c a) :
    Number.wide c (a * 2 ^ Number.kNumFracBits c) = a * 2 ^ Number.kNumFracBits c := by
  obtain ⟨h8, hdw, -⟩ := valid_facts hc
  have hss : c.baseSigned = c.wideSigned := hc.2.2.1
  have hF : Number.kNumFracBits c ≤ Number.kNumBits c := Nat.sub_le _ _
  have hFpos : (0:ℤ) < 2 ^ Number.kNumFracBits c := pow_pos (by norm_num) _
  unfold Number.InRange at ha
  unfold Number.wide
  cases hs : c.baseSigned
  · simp [hs] at ha
    rw [← hss, hs]
    have h1 : a * 2 ^ Number.kNumFracBits c <
        2 ^ Number.kNumBits c * 2 ^ Number.kNumFracBits c :=
      mul_lt_mul_of_pos_right ha.2 hFpos
    have h2 : (2:ℤ) ^ Number.kNumBits c * 2 ^ Number.kNumFracBits c =
        2 ^ (Number.kNumBits c + Number.kNumFracBits c) := (pow_add 2 _ _).symm
    have h3 : (2:ℤ) ^ (Number.kNumBits c + Number.kNumFracBits c) ≤
        2 ^ Number.kWideBits c :=
      pow_le_pow_right₀ (by norm_num) (by omega)
    exact icast_false_eq_self (mul_nonneg ha.1 (le_of_lt hFpos)) (by omega)
  · simp [hs] at ha
    rw [← hss, hs]
    have h1 : a * 2 ^ Number.kNumFracBits c ≤
        (2 ^ (Number.kNumBits c - 1) - 1) * 2 ^ Number.kNumFracBits c :=
      mul_le_mul_of_nonneg_right (by omega) (le_of_lt hFpos)
    have h2 : -(2 ^ (Number.kNumBits c - 1)) * 2 ^ Number.kNumFracBits c ≤
        a * 2 ^ Number.kNumFracBits c :=
      mul_le_mul_of_nonneg_right ha.1 (le_of_lt hFpos)
    have e1 : ((2:ℤ) ^ (Number.kNumBits c - 1) - 1) * 2 ^ Number.kNumFracBits c =
        2 ^ ((Number.kNumBits c - 1) + Number.kNumFracBits c) -
          2 ^ Number.kNumFracBits c := by
      rw [sub_mul, one_mul, pow_add]
    have e2 : -((2:ℤ) ^ (Number.kNumBits c - 1)) * 2 ^ Number.kNumFracBits c =
        -(2 ^ ((Number.kNumBits c - 1) + Number.kNumFracBits c)) := by
      rw [neg_mul, pow_add]
    have h4 : (2:ℤ) ^ ((Number.kNumBits c - 1) + Number.kNumFracBits c) ≤
        2 ^ (Number.kWideBits c - 1) :=
      pow_le_pow_right₀ (by norm_num) (by omega)
    exact icast_true_eq_self (by omega) (by omega) (by omega)

lemma landW_zero_left (s : Bool) (w : Nat) (y : Int) (hw : 1 ≤ w) :
    landW s w 0 y = 0 := by
  have hpos : (0:ℤ) < 2 ^ (w - 1) := pow_pos (by norm_num) _
  have hpow2 : (0:ℤ) < 2 ^ w := pow_pos (by norm_num) w
  have h0 : Nat.land (pat w 0) (pat w y) = 0 := by
    have hp : pat w 0 = 0 := by
      unfold pat
      rw [Int.zero_emod]
      rfl
    rw [hp]
    exact Nat.zero_and _
  unfold landW
  rw [h0]
  cases s
  · exact icast_false_eq_self (by omega) (by omega)
  · exact icast_true_eq_self hw (by omega) (by omega)

lemma landW_le_mask_signed (w : Nat) (x : Int) {m : ℤ} (hw : 1 ≤ w)
    (hm0 : 0 ≤ m) (hmw : m < 2 ^ (w - 1)) :
    0 ≤ landW true w x m ∧ landW true w x m ≤ m := by
  unfold landW
  have hsplit : (2:ℤ) ^ w = 2 ^ (w - 1) * 2 := by
    rw [← pow_succ]
    congr 1
    omega
  have hpat : pat w m = m.toNat := by
    unfold pat
    rw [Int.emod_eq_of_lt hm0 (by omega)]
  have hle : Nat.land (pat w x) (pat w m) ≤ m.toNat := by
    rw [hpat]
    exact Nat.and_le_right
  have htn := Int.toNat_of_nonneg hm0
  have hcast : (↑(Nat.land (pat w x) (pat w m)) : ℤ) ≤ m := by omega
  have h0 : (0:ℤ) ≤ ↑(Nat.land (pat w x) (pat w m)) := by positivity
  rw [icast_true_eq_self hw (by omega) (by omega)]
  exact ⟨h0, hcast⟩

lemma landW_le_mask_unsigned (w : Nat) (x : Int) {m : ℤ}
    (hm0 : 0 ≤ m) (hmw : m < 2 ^ w) :
    0 ≤ landW false w x m ∧ landW false w x m ≤ m := by
  unfold landW
  have hpat : pat w m = m.toNat := by
    unfold pat
    rw [Int.emod_eq_of_lt hm0 hmw]
  have hle : Nat.land (pat w x) (pat w m) ≤ m.toNat := by
    rw [hpat]
    exact Nat.and_le_right
  have htn := Int.toNat_of_nonneg hm0
  have hcast : (↑(Nat.land (pat w x) (pat w m)) : ℤ) ≤ m := by omega
  have h0 : (0:ℤ) ≤ ↑(Nat.land (pat w x) (pat w m)) := by positivity
  rw [icast_false_eq_self (by omega) (by omega)]
  exact ⟨h0, hcast⟩

/- Theorems settling the claims. -/

/-- Claim C1: multiplication casts both raw operands to `WideType`,
multiplies there without wrapping, arithmetic-shifts the exact double-width
product right by `kNumFracBits` (division by `2 ^ FracBits` rounding toward
negative infinity), and reduces modulo `2 ^ W` when narrowing back to
`IntType`. -/
theorem mul_eq_wide_product_shift (c : Config) (hc : c.Valid) (a b : Int)
    (ha : Number.InRange c a) (hb : Number.InRange c b) :
    Number.mul c a b =
      Number.narrow c (Int.fdiv (a * b) (2 ^ Number.kNumFracBits c)) := by
  unfold Number.mul
  rw [wide_of_inRange hc ha, wide_of_inRange hc hb, wide_mul_exact hc ha hb]

/-- Witness for C1 at the configuration `cS8` with raws `-100` and `77`. -/
theorem mul_eq_wide_product_shift_witness :
    cS8.Valid ∧ Number.InRange cS8 (-100) ∧ Number.InRange cS8 77 ∧
      Number.mul cS8 (-100) 77 =
        Number.narrow cS8 (Int.fdiv ((-100) * 77) (2 ^ Number.kNumFracBits cS8)) :=
  ⟨by decide, by decide, by decide,
    mul_eq_wide_product_shift cS8 (by decide) (-100) 77 (by decide) (by decide)⟩

/-- Claim C2: division widens the dividend and pre-shifts it left by
`kNumFracBits` before the truncating integer divide, with no wrap in the wide
type; `b.raw = 0` is a caller precondition. -/
theorem div_eq_preshifted_quotient (c : Config) (hc : c.Valid) (a b : Int)
    (ha : Number.InRange c a) (hb : Number.InRange c b) (hb0 : b ≠ 0) :
    Number.div c a b =
      Number.narrow c (Int.tdiv (a * 2 ^ Number.kNumFracBits c) b) := by
  unfold Number.div
  rw [wide_of_inRange hc ha, wide_of_inRange hc hb, wide_shl_exact hc ha]

/-- Witness for C2 at the configuration `cS8` with raws `-100` and `7`. -/
theorem div_eq_preshifted_quotient_witness :
    cS8.Valid ∧ Number.InRange cS8 (-100) ∧ Number.InRange cS8 7 ∧
      (7:ℤ) ≠ 0 ∧
      Number.div cS8 (-100) 7 =
        Number.narrow cS8 (Int.tdiv ((-100) * 2 ^ Number.kNumFracBits cS8) 7) :=
  ⟨by decide, by decide, by decide, by decide,
    div_eq_preshifted_quotient cS8 (by decide) (-100) 7 (by decide) (by decide)
      (by decide)⟩

/-- Claim C3 is a code bug: at the raw value `-131072` (the number `-0.5` in
the Q14.18 format) the fractional part is nonzero, yet `fp_floor` returns `0`
(which lies above the argument) and `fp_ceil` returns `-262144`, the raw of
`-1.0` (which lies below it) — `fp_floor(a) ≤ a ≤ fp_ceil(a)` fails on both
sides.  For negative inputs the masking `FP_INT_MASK & a` already rounds
toward negative infinity, and the extra `FP_VAL_POS_ONE` moves the result
up, so the code's floor and ceil are exchanged on negative non-integers. -/
theorem fp_floor_ceil_swapped_at_neg_half :
    fp_frac (-131072) = 131072 ∧
    fp_floor (-131072) = 0 ∧
    fp_ceil (-131072) = -262144 ∧
    ¬ fp_floor (-131072) ≤ -131072 ∧
    ¬ (-131072 : Int) ≤ fp_ceil (-131072) := by decide

/-- Claim C4: rounding is half-away-from-zero.  The IEEE `float` literals
`18.5F`, `-18.5F`, `18.2F`, `18.6F` have exact values `37/2`, `-37/2`,
`9542042/2^19`, `9751757/2^19`; `fp_round` maps them to `19`, `-19`, `18`,
`19` full units, and in general equals `fp_ceil` when `fp_frac(a) ≥ Half`
and `fp_floor` otherwise. -/
theorem fp_round_half_away_examples :
    fp_round (float_to_fp 37 1) = FP_FROM_INT 19 ∧
    fp_round (float_to_fp (-37) 1) = FP_FROM_INT (-19) ∧
    fp_round (float_to_fp 9542042 19) = FP_FROM_INT 18 ∧
    fp_round (float_to_fp 9751757 19) = FP_FROM_INT 19 ∧
    ∀ a : Int, fp_round a =
      if fp_frac a ≥ FP_VAL_HALF then fp_ceil a else fp_floor a :=
  ⟨by decide, by decide, by decide, by decide, fun a => rfl⟩

/-- Counterexample to claim C5 as stated: the configuration `cP1`
(`int8_t`/`int16_t`, one integer bit) is accepted by the `requires` clause,
but its scale `2 ^ 7` wraps to `-128` on narrowing, and multiplying or
dividing the raw `32` (the number `0.25`) by `PosOne()` yields `-32`, not
`32`. -/
theorem mul_posOne_fails_at_wrapped_scale :
    cP1.Valid ∧ Number.InRange cP1 32 ∧ Number.PosOne cP1 = -128 ∧
      Number.mul cP1 32 (Number.PosOne cP1) = -32 ∧
      Number.div cP1 32 (Number.PosOne cP1) = -32 ∧
      ¬ Number.mul cP1 32 (Number.PosOne cP1) = 32 := by decide

/-- Claim C5 as amended: whenever the narrowing of `ScaleFactor = 2 ^
FracBits` does not wrap (so `PosOne()`'s raw really is `2 ^ FracBits`),
multiplying or dividing any representable value by `PosOne()` is the
identity. -/
theorem mul_div_posOne_identity (c : Config) (hc : c.Valid) (a : Int)
    (ha : Number.InRange c a)
    (hsf : Number.kScaleFactor c = 2 ^ Number.kNumFracBits c) :
    Number.mul c a (Number.PosOne c) = a ∧
      Number.div c a (Number.PosOne c) = a := by
  have hF0 : (2:ℤ) ^ Number.kNumFracBits c ≠ 0 := by positivity
  have hscale : Number.InRange c ((2:ℤ) ^ Number.kNumFracBits c) := by
    have h := narrow_mem_range hc (Number.wide c (2 ^ Number.kNumFracBits c))
    rwa [show Number.narrow c (Number.wide c (2 ^ Number.kNumFracBits c)) =
      Number.kScaleFactor c from rfl, hsf] at h
  constructor
  · unfold Number.mul Number.PosOne
    rw [hsf, wide_of_inRange hc ha, wide_of_inRange hc hscale,
      wide_mul_exact hc ha hscale, Int.mul_fdiv_cancel a hF0,
      narrow_eq_self hc ha]
  · unfold Number.div Number.PosOne
    rw [hsf, wide_of_inRange hc ha, wide_shl_exact hc ha,
      wide_of_inRange hc hscale, Int.mul_tdiv_cancel a hF0,
      narrow_eq_self hc ha]

/-- Witness for the amended C5 at the configuration `cS8` with raw `-100`. -/
theorem mul_div_posOne_identity_witness :
    cS8.Valid ∧ Number.InRange cS8 (-100) ∧
      Number.kScaleFactor cS8 = 2 ^ Number.kNumFracBits cS8 ∧
      Number.mul cS8 (-100) (Number.PosOne cS8) = -100 ∧
      Number.div cS8 (-100) (Number.PosOne cS8) = -100 :=
  ⟨by decide, by decide, by decide,
    (mul_div_posOne_identity cS8 (by decide) (-100) (by decide) (by decide)).1,
    (mul_div_posOne_identity cS8 (by decide) (-100) (by decide) (by decide)).2⟩

/-- Claim C6: addition and subtraction act on the raws by wrapping integer
arithmetic, and `(a + b) - b = a` whenever `a`, `b` and `a + b` are
representable (no overflow in the addition). -/
theorem add_sub_inverse (c : Config) (hc : c.Valid) (a b : Int)
    (ha : Number.InRange c a) (hb : Number.InRange c b)
    (hab : Number.InRange c (a + b)) :
    Number.sub c (Number.add c a b) b = a := by
  unfold Number.add Number.sub
  rw [narrow_eq_self hc hab, add_sub_cancel_right, narrow_eq_self hc ha]

/-- Witness for C6 at the configuration `cS8` with raws `50` and `-30`. -/
theorem add_sub_inverse_witness :
    cS8.Valid ∧ Number.InRange cS8 50 ∧ Number.InRange cS8 (-30) ∧
      Number.InRange cS8 (50 + (-30)) ∧
      Number.sub cS8 (Number.add cS8 50 (-30)) (-30) = 50 :=
  ⟨by decide, by decide, by decide, by decide,
    add_sub_inverse cS8 (by decide) 50 (-30) (by decide) (by decide) (by decide)⟩

/-- Claim C10 as amended: every configuration accepted by the `requires`
clause has at least one fractional bit (`ValidIntBits` forces
`NumIntBits < digits ≤ W`); acceptance does not force `NumIntBits ≥ 1`. -/
theorem valid_config_fracBits_pos (c : Config) (hc : c.Valid) :
    1 ≤ Number.kNumFracBits c := by
  have h := (valid_facts hc).2.2
  unfold Number.kNumFracBits
  omega

/-- Witness for the amended C10 at the configuration `cZ0`. -/
theorem valid_config_fracBits_pos_witness :
    cZ0.Valid ∧ 1 ≤ Number.kNumFracBits cZ0 :=
  ⟨by decide, valid_config_fracBits_pos cZ0 (by decide)⟩

/-- Counterexample to claim C10 as stated: the configuration `cZ0`
(`int32_t`/`int64_t` with `NumIntBits = 0`) satisfies every template
constraint, so zero integer bits is not rejected at compile time. -/
theorem valid_config_with_zero_intBits : cZ0.Valid ∧ cZ0.numIntBits = 0 := by
  decide

/-- Claim C7: on a signed configuration, `Abs` of the raw minimum
`-2 ^ (W-1)` finds the sign bit set, negates in the wide type to `+2 ^
(W-1)`, and narrows modulo `2 ^ W` back to `-2 ^ (W-1)`: the result is the
minimum itself, sign bit still set. -/
theorem abs_min_value_wraps (c : Config) (hc : c.Valid)
    (hs : c.baseSigned = true) :
    Number.SignBit c (-(2 ^ (Number.kNumBits c - 1))) = true ∧
    Number.Abs c (-(2 ^ (Number.kNumBits c - 1))) =
      -(2 ^ (Number.kNumBits c - 1)) := by
  obtain ⟨h8, hdw, -⟩ := valid_facts hc
  have hss : c.baseSigned = c.wideSigned := hc.2.2.1
  have hpos : (0:ℤ) < 2 ^ (Number.kNumBits c - 1) := pow_pos (by norm_num) _
  have hsplit : (2:ℤ) ^ Number.kNumBits c = 2 ^ (Number.kNumBits c - 1) * 2 := by
    rw [← pow_succ]
    congr 1
    omega
  have hshift : Int.fdiv (-(2 ^ (Number.kNumBits c - 1)))
      (2 ^ (Number.kNumBits c - 1)) = -1 := by
    have h := Int.mul_fdiv_cancel (-1) (ne_of_gt hpos)
    rw [show (-1 : ℤ) * 2 ^ (Number.kNumBits c - 1) =
      -(2 ^ (Number.kNumBits c - 1)) by ring] at h
    exact h
  have hmod : (-1 : ℤ) % 2 ^ Number.kNumBits c = 2 ^ Number.kNumBits c - 1 := by
    have h1 : (-1 : ℤ) =
        2 ^ Number.kNumBits c - 1 + 2 ^ Number.kNumBits c * (-1) := by ring
    rw [h1, Int.add_mul_emod_self_left, Int.emod_eq_of_lt (by omega) (by omega)]
  have hcast : ((2 ^ Number.kNumBits c : ℕ) : ℤ) = 2 ^ Number.kNumBits c := by
    push_cast
    ring
  have hpat1 : pat (Number.kNumBits c) (-1) = 2 ^ Number.kNumBits c - 1 := by
    unfold pat
    rw [hmod]
    omega
  have hpatone : pat (Number.kNumBits c) 1 = 1 := by
    unfold pat
    rw [Int.emod_eq_of_lt (by omega) (by omega)]
    rfl
  have hland : Nat.land (2 ^ Number.kNumBits c - 1) 1 = 1 := by
    have h2 : Nat.land (2 ^ Number.kNumBits c - 1) 1 =
        (2 ^ Number.kNumBits c - 1) % 2 := Nat.and_one_is_mod _
    have h3 : (2:ℕ) ^ Number.kNumBits c = 2 * 2 ^ (Number.kNumBits c - 1) := by
      rw [← pow_succ']
      congr 1
      omega
    have h4 : 1 ≤ (2:ℕ) ^ (Number.kNumBits c - 1) := Nat.one_le_two_pow
    omega
  have htwo : (2:ℤ) ^ 1 ≤ 2 ^ (Number.kNumBits c - 1) :=
    pow_le_pow_right₀ (by norm_num) (by omega)
  have hsb : Number.SignBit c (-(2 ^ (Number.kNumBits c - 1))) = true := by
    unfold Number.SignBit
    rw [if_pos hs]
    unfold landW
    rw [hshift, hpat1, hpatone, hland, hs]
    rw [icast_true_eq_self (by omega) (by omega) (by omega)]
    decide
  refine ⟨hsb, ?_⟩
  unfold Number.Abs
  rw [if_pos hs, if_pos hsb]
  have hwm : Number.wide c (-(2 ^ (Number.kNumBits c - 1))) =
      -(2 ^ (Number.kNumBits c - 1)) := by
    unfold Number.wide
    rw [← hss, hs]
    have hmono : (2:ℤ) ^ (Number.kNumBits c - 1) ≤ 2 ^ (Number.kWideBits c - 1) :=
      pow_le_pow_right₀ (by norm_num) (by omega)
    exact icast_true_eq_self (by omega) (by omega) (by omega)
  rw [hwm, neg_neg]
  unfold Number.narrow
  rw [hs]
  show (2 ^ (Number.kNumBits c - 1) + 2 ^ (Number.kNumBits c - 1)) %
      2 ^ Number.kNumBits c - 2 ^ (Number.kNumBits c - 1) =
    -(2 ^ (Number.kNumBits c - 1))
  rw [show (2:ℤ) ^ (Number.kNumBits c - 1) + 2 ^ (Number.kNumBits c - 1) =
    2 ^ Number.kNumBits c by omega]
  rw [Int.emod_self]
  omega

/-- Witness for C7 at the configuration `cS8` (raw minimum `-128`). -/
theorem abs_min_value_wraps_witness :
    cS8.Valid ∧ cS8.baseSigned = true ∧
      Number.SignBit cS8 (-(2 ^ (Number.kNumBits cS8 - 1))) = true ∧
      Number.Abs cS8 (-(2 ^ (Number.kNumBits cS8 - 1))) =
        -(2 ^ (Number.kNumBits cS8 - 1)) :=
  ⟨by decide, by decide,
    (abs_min_value_wraps cS8 (by decide) (by decide)).1,
    (abs_min_value_wraps cS8 (by decide) (by decide)).2⟩

/-- Claim C8: on signed configurations `Sign` returns `NegOne()` exactly when
the sign bit is set and `PosOne()` otherwise — in particular `Sign(Zero()) =
PosOne()`; on unsigned configurations `Sign` returns `Zero()` for raw `0` and
`PosOne()` otherwise, and `SignBit` is constantly `false`. -/
theorem sign_signBit_cases (c : Config) (hc : c.Valid) (a : Int) :
    (c.baseSigned = true →
      Number.Sign c a =
        (if Number.SignBit c a then Number.NegOne c else Number.PosOne c) ∧
      Number.Sign c (Number.Zero c) = Number.PosOne c) ∧
    (c.baseSigned = false →
      Number.Sign c a = (if a = 0 then Number.Zero c else Number.PosOne c) ∧
      Number.SignBit c a = false) := by
  obtain ⟨h8, hdw, -⟩ := valid_facts hc
  constructor
  · intro hs
    have hsb0 : Number.SignBit c (Number.Zero c) = false := by
      unfold Number.SignBit Number.Zero
      rw [if_pos hs, Int.zero_fdiv, landW_zero_left _ _ _ (by omega)]
      decide
    refine ⟨?_, ?_⟩
    · unfold Number.Sign
      rw [if_pos hs]
    · unfold Number.Sign
      rw [if_pos hs, hsb0]
      simp
  · intro hs
    have hns : ¬ (c.baseSigned = true) := by simp [hs]
    refine ⟨?_, ?_⟩
    · unfold Number.Sign
      rw [if_neg hns]
    · unfold Number.SignBit
      rw [if_neg hns]

/-- Witness for C8 at the configuration `cS8` with raw `-100`. -/
theorem sign_signBit_cases_witness :
    cS8.Valid ∧
      ((cS8.baseSigned = true →
        Number.Sign cS8 (-100) =
          (if Number.SignBit cS8 (-100) then Number.NegOne cS8
           else Number.PosOne cS8) ∧
        Number.Sign cS8 (Number.Zero cS8) = Number.PosOne cS8) ∧
      (cS8.baseSigned = false →
        Number.Sign cS8 (-100) =
          (if (-100 : ℤ) = 0 then Number.Zero cS8 else Number.PosOne cS8) ∧
        Number.SignBit cS8 (-100) = false)) :=
  ⟨by decide, sign_signBit_cases cS8 (by decide) (-100)⟩

/-- Counterexample to claim C9 as stated: on the accepted configuration `cP1`
the scale wraps, `PosOne()`'s raw is `-128`, and `FracPart` of the raw `5` is
`5`, which is not below `PosOne()`. -/
theorem fracPart_not_lt_posOne_at_wrapped_scale :
    cP1.Valid ∧ Number.InRange cP1 5 ∧ Number.FracPart cP1 5 = 5 ∧
      Number.PosOne cP1 = -128 ∧
      ¬ Number.FracPart cP1 5 < Number.PosOne cP1 := by decide

/-- Claim C9 as amended: `FracPart(a)` is `Abs(a).raw & FracMask`, and
whenever the narrowing of `ScaleFactor = 2 ^ FracBits` does not wrap, its
raw result lies in `[0, ScaleFactor)` for every representable `a` — the sign
is discarded, not preserved. -/
theorem fracPart_nonneg_lt_scale (c : Config) (hc : c.Valid) (a : Int)
    (ha : Number.InRange c a)
    (hsf : Number.kScaleFactor c = 2 ^ Number.kNumFracBits c) :
    0 ≤ Number.FracPart c a ∧
      Number.FracPart c a < Number.kScaleFactor c := by
  obtain ⟨h8, hdw, -⟩ := valid_facts hc
  have hF2 : (0:ℤ) < 2 ^ Number.kNumFracBits c := pow_pos (by norm_num) _
  have hscale : Number.InRange c ((2:ℤ) ^ Number.kNumFracBits c) := by
    have h := narrow_mem_range hc (Number.wide c (2 ^ Number.kNumFracBits c))
    rwa [show Number.narrow c (Number.wide c (2 ^ Number.kNumFracBits c)) =
      Number.kScaleFactor c from rfl, hsf] at h
  have hnarrowF : Number.narrow c ((2:ℤ) ^ Number.kNumFracBits c) =
      2 ^ Number.kNumFracBits c := narrow_eq_self hc hscale
  have hmask1 : Number.InRange c ((2:ℤ) ^ Number.kNumFracBits c - 1) := by
    unfold Number.InRange at hscale ⊢
    cases hs : c.baseSigned <;> simp [hs] at hscale ⊢ <;> omega
  have hmask : Number.FracMask c = 2 ^ Number.kNumFracBits c - 1 := by
    unfold Number.FracMask
    rw [hnarrowF]
    exact narrow_eq_self hc hmask1
  rw [hsf]
  unfold Number.FracPart
  rw [hmask]
  unfold Number.InRange at hscale
  cases hs : c.baseSigned
  · simp [hs] at hscale
    have hb := landW_le_mask_unsigned (Number.kNumBits c) (Number.Abs c a)
      (m := 2 ^ Number.kNumFracBits c - 1) (by omega) (by omega)
    exact ⟨hb.1, by omega⟩
  · simp [hs] at hscale
    have hb := landW_le_mask_signed (Number.kNumBits c) (Number.Abs c a)
      (m := 2 ^ Number.kNumFracBits c - 1) (by omega) (by omega) (by omega)
    exact ⟨hb.1, by omega⟩

/-- Witness for the amended C9 at the configuration `cS8` with raw `-100`. -/
theorem fracPart_nonneg_lt_scale_witness :
    cS8.Valid ∧ Number.InRange cS8 (-100) ∧
      Number.kScaleFactor cS8 = 2 ^ Number.kNumFracBits cS8 ∧
      0 ≤ Number.FracPart cS8 (-100) ∧
      Number.FracPart cS8 (-100) < Number.kScaleFactor cS8 :=
  ⟨by decide, by decide, by decide,
    (fracPart_nonneg_lt_scale cS8 (by decide) (-100) (by decide) (by decide)).1,
    (fracPart_nonneg_lt_scale cS8 (by decide) (-100) (by decide) (by decide)).2⟩

end FixedPoint
